import Mathlib

set_option linter.unnecessarySeqFocus false

/-!
Shallow embedding of `src/Main.cpp` from the `hdr-calib` repository.

Modelling conventions:
* C++ `float` arithmetic on nits / colors / geometry is embedded as exact
  rational arithmetic (`ℚ`); all stored values in this program are small
  decimal quantities (multiples of 0.01) far below `float` precision limits.
* `DWORD` millisecond timestamps from `GetTickCount()` are embedded as an
  unbounded monotone counter (`ℕ`); `currentTime - t` uses truncated `ℕ`
  subtraction, which agrees with the 32-bit wrapping subtraction as long as
  the tick counter does not wrap (stored timestamps are always taken from
  earlier `currentTime` samples).
* The per-frame static locals of `ProcessInput` become an explicit
  `InputState` record threaded through a step function; the observable
  actions of a frame (quit, mode toggle, decrease, increase) are returned in
  an `Emitted` record.
-/

namespace HdrCalib

/-- Embeds `enum class BrightnessMode` (Main.cpp:12-16). -/
inductive BrightnessMode where
  | MaxWhite
  | MinBlack
  deriving DecidableEq, Repr

/-- An RGB color triple (alpha is always 1 in the program and is omitted). -/
structure Color3 where
  r : ℚ
  g : ℚ
  b : ℚ
  deriving DecidableEq, Repr

/-- The global brightness-related state of the program: `g_mode`,
`g_brightnessMaxWhite`, `g_brightnessMinBlack` and the color stored in
`g_innerBrush` (Main.cpp:33-35, 27). -/
structure AppState where
  mode : BrightnessMode
  brightnessMaxWhite : ℚ
  brightnessMinBlack : ℚ
  innerBrushColor : Color3
  deriving DecidableEq, Repr

/-- Embeds `GetCurrentBrightness` (Main.cpp:134-137). -/
def GetCurrentBrightness (s : AppState) : ℚ :=
  if s.mode = BrightnessMode.MaxWhite then s.brightnessMaxWhite else s.brightnessMinBlack

/-- The nits → scRGB encoding `scRGB = brightness / 80.0f;
ColorF(scRGB, scRGB, scRGB, 1.0f)` used at Main.cpp:147-148, 166-167, 422-424. -/
def encode (nits : ℚ) : Color3 :=
  ⟨nits / 80, nits / 80, nits / 80⟩

/-- Embeds `SetCurrentBrightness` (Main.cpp:139-149): stores into the active mode's
field and updates the inner brush color from the stored value. -/
def SetCurrentBrightness (s : AppState) (brightness : ℚ) : AppState :=
  let s1 := if s.mode = BrightnessMode.MaxWhite
    then { s with brightnessMaxWhite := brightness }
    else { s with brightnessMinBlack := brightness }
  { s1 with innerBrushColor := encode brightness }

/-- Embeds `GetIncrement` (Main.cpp:151-154). -/
def GetIncrement (s : AppState) : ℚ :=
  if s.mode = BrightnessMode.MaxWhite then 10 else 1/100

/-- Embeds `GetMaxBrightness` (Main.cpp:156-159). -/
def GetMaxBrightness (s : AppState) : ℚ :=
  if s.mode = BrightnessMode.MaxWhite then 10000 else 1

/-- Embeds `ToggleMode` (Main.cpp:161-168): flips the mode, then refreshes the inner
brush from the now-active brightness. -/
def ToggleMode (s : AppState) : AppState :=
  let s1 := { s with
    mode := if s.mode = BrightnessMode.MaxWhite
      then BrightnessMode.MinBlack else BrightnessMode.MaxWhite }
  { s1 with innerBrushColor := encode (GetCurrentBrightness s1) }

/-- The windows.h `max(a,b)` macro: `((a) > (b) ? (a) : (b))`. -/
def cppMax (a b : ℚ) : ℚ := if b < a then a else b

/-- The windows.h `min(a,b)` macro: `((a) < (b) ? (a) : (b))`. -/
def cppMin (a b : ℚ) : ℚ := if a < b then a else b

/-- The initial-press update for the left (decrease) input (Main.cpp:228-229). -/
def decreaseOp (s : AppState) : AppState :=
  SetCurrentBrightness s (cppMax 0 (GetCurrentBrightness s - GetIncrement s))

/-- The initial-press update for the right (increase) input (Main.cpp:251-252). -/
def increaseOp (s : AppState) : AppState :=
  SetCurrentBrightness s (cppMin (GetMaxBrightness s) (GetCurrentBrightness s + GetIncrement s))

/-- The stored nits value of the mode that is NOT active. -/
def inactiveNits (s : AppState) : ℚ :=
  match s.mode with
  | BrightnessMode.MaxWhite => s.brightnessMinBlack
  | BrightnessMode.MinBlack => s.brightnessMaxWhite

/-- Initial values of the globals (Main.cpp:33-35) with the inner brush as
initialized by `InitD2D` (Main.cpp:421-424): `GetCurrentBrightness()/80 = 10`. -/
def initialApp : AppState :=
  { mode := BrightnessMode.MaxWhite
    brightnessMaxWhite := 800
    brightnessMinBlack := 1/10
    innerBrushColor := encode 800 }

/-! ## Input sampling and the per-frame step (`ProcessInput`, Main.cpp:170-270) -/

/-- One frame's worth of raw external input: the keyboard keys sampled via
`GetAsyncKeyState` and the gamepad state sampled via `XInputGetState`
(Main.cpp:186-214).  `padConnected` is whether `XInputGetState` succeeded. -/
structure RawInput where
  keyLeft : Bool
  keyRight : Bool
  keySpace : Bool
  padConnected : Bool
  dpadLeft : Bool
  dpadRight : Bool
  thumbLX : Int
  buttonB : Bool
  buttonX : Bool
  deriving DecidableEq, Repr

/-- Embeds `STICK_THRESHOLD` (Main.cpp:200). -/
def STICK_THRESHOLD : Int := 16000

/-- The merged "decrease" signal: LEFT key OR d-pad left OR stick left
(Main.cpp:187, 196, 201-202). -/
def leftSignal (i : RawInput) : Bool :=
  i.keyLeft || (i.padConnected && (i.dpadLeft || decide (i.thumbLX < -STICK_THRESHOLD)))

/-- The merged "increase" signal: RIGHT key OR d-pad right OR stick right
(Main.cpp:188, 197, 203-204). -/
def rightSignal (i : RawInput) : Bool :=
  i.keyRight || (i.padConnected && (i.dpadRight || decide (STICK_THRESHOLD < i.thumbLX)))

/-- The merged "toggle" signal: SPACE key OR gamepad X button
(Main.cpp:189, 213-214). -/
def spaceSignal (i : RawInput) : Bool :=
  i.keySpace || (i.padConnected && i.buttonX)

/-- The "quit" signal: gamepad B button, only observed while a pad is
connected (Main.cpp:207). -/
def bSignal (i : RawInput) : Bool :=
  i.padConnected && i.buttonB

/-- The static locals of `ProcessInput` (Main.cpp:172-178).  Note that
`lastRepeatTime` is a single variable shared by the left and right inputs. -/
structure InputState where
  leftWasPressed : Bool
  rightWasPressed : Bool
  bWasPressed : Bool
  spaceWasPressed : Bool
  leftPressStartTime : ℕ
  rightPressStartTime : ℕ
  lastRepeatTime : ℕ
  deriving DecidableEq, Repr

/-- Static locals all start zero-initialized (Main.cpp:172-178). -/
def initialInput : InputState :=
  { leftWasPressed := false
    rightWasPressed := false
    bWasPressed := false
    spaceWasPressed := false
    leftPressStartTime := 0
    rightPressStartTime := 0
    lastRepeatTime := 0 }

/-- Embeds `REPEAT_DELAY` (Main.cpp:181). -/
def REPEAT_DELAY : ℕ := 1500

/-- Embeds `REPEAT_INTERVAL` (Main.cpp:182). -/
def REPEAT_INTERVAL : ℕ := 200

/-- The observable actions taken during one `ProcessInput` call:
`PostQuitMessage` (Main.cpp:209), `ToggleMode` (Main.cpp:219), and the
left/right brightness updates (Main.cpp:222-266). -/
structure Emitted where
  quit : Bool
  toggle : Bool
  decrease : Bool
  increase : Bool
  deriving DecidableEq, Repr

/-- Result of the shared press / delayed-auto-repeat block used for both the
left (Main.cpp:223-243) and right (Main.cpp:246-266) inputs. -/
structure RLOut where
  app : AppState
  pressStart : ℕ
  lastRep : ℕ
  emitted : Bool
  deriving DecidableEq, Repr

/-- The press / delayed-auto-repeat block (Main.cpp:223-243 and 246-266):
on a fresh press apply the update and seed both timers; while held, after
`REPEAT_DELAY` has elapsed since the press, apply the update whenever
`REPEAT_INTERVAL` has elapsed since the last application. -/
def repeatLogic (currentTime : ℕ) (pressed wasPressed : Bool)
    (pressStart lastRep : ℕ) (apply : AppState → AppState) (a : AppState) : RLOut :=
  if pressed then
    if !wasPressed then
      ⟨apply a, currentTime, currentTime, true⟩
    else if REPEAT_DELAY ≤ currentTime - pressStart then
      if REPEAT_INTERVAL ≤ currentTime - lastRep then
        ⟨apply a, pressStart, currentTime, true⟩
      else ⟨a, pressStart, lastRep, false⟩
    else ⟨a, pressStart, lastRep, false⟩
  else ⟨a, pressStart, lastRep, false⟩

/-- The whole mutable state touched by `ProcessInput`. -/
structure Sys where
  app : AppState
  inp : InputState
  deriving DecidableEq, Repr

def initialSys : Sys := ⟨initialApp, initialInput⟩

/-- Embeds `ProcessInput` (Main.cpp:170-270) as a state transformer for one frame.
Faithful ordering: `INCREMENT` and `MAX_BRIGHTNESS` are read from the mode
BEFORE the space/X toggle is handled (Main.cpp:183-184 vs 218-219); the left
input is handled before the right input, and both share `lastRepeatTime`. -/
def ProcessInput (currentTime : ℕ) (i : RawInput) (sys : Sys) : Sys × Emitted :=
  let INCREMENT := GetIncrement sys.app
  let MAX_BRIGHTNESS := GetMaxBrightness sys.app
  let leftPressed := leftSignal i
  let rightPressed := rightSignal i
  let spacePressed := spaceSignal i
  let bPressed := bSignal i
  let quitE := bPressed && !sys.inp.bWasPressed
  let bWas := if i.padConnected then bPressed else sys.inp.bWasPressed
  let toggleE := spacePressed && !sys.inp.spaceWasPressed
  let a0 := if toggleE then ToggleMode sys.app else sys.app
  let l := repeatLogic currentTime leftPressed sys.inp.leftWasPressed
    sys.inp.leftPressStartTime sys.inp.lastRepeatTime
    (fun a => SetCurrentBrightness a (cppMax 0 (GetCurrentBrightness a - INCREMENT))) a0
  let r := repeatLogic currentTime rightPressed sys.inp.rightWasPressed
    sys.inp.rightPressStartTime l.lastRep
    (fun a => SetCurrentBrightness a (cppMin MAX_BRIGHTNESS (GetCurrentBrightness a + INCREMENT))) l.app
  (⟨r.app,
    { leftWasPressed := leftPressed
      rightWasPressed := rightPressed
      bWasPressed := bWas
      spaceWasPressed := spacePressed
      leftPressStartTime := l.pressStart
      rightPressStartTime := r.pressStart
      lastRepeatTime := r.lastRep }⟩,
   { quit := quitE, toggle := toggleE, decrease := l.emitted, increase := r.emitted })

/-- Run a sequence of frames, returning the final state.  Each trace element
is a `(GetTickCount() sample, raw input sample)` pair. -/
def runSys (sys : Sys) : List (ℕ × RawInput) → Sys
  | [] => sys
  | (t, i) :: tr => runSys (ProcessInput t i sys).1 tr

/-- Run a sequence of frames, returning the per-frame emitted actions. -/
def runEmits (sys : Sys) : List (ℕ × RawInput) → List Emitted
  | [] => []
  | (t, i) :: tr => (ProcessInput t i sys).2 :: runEmits (ProcessInput t i sys).1 tr

/-- A keyboard-only input sample. -/
def keys (l r sp : Bool) : RawInput :=
  { keyLeft := l, keyRight := r, keySpace := sp, padConnected := false
    dpadLeft := false, dpadRight := false, thumbLX := 0
    buttonB := false, buttonX := false }

/-! ## Layout and text (`Render`, Main.cpp:471-526) -/

/-- A `D2D1_RECT_F`. -/
structure RectF where
  left : ℚ
  top : ℚ
  right : ℚ
  bottom : ℚ
  deriving DecidableEq, Repr

/-- The geometry computed by `Render` (Main.cpp:478-513). -/
structure Layout where
  outerDrawn : Bool
  outer : RectF
  inner : RectF
  textRect : RectF
  deriving DecidableEq, Repr

/-- The geometry part of `Render` (Main.cpp:478-513) as a pure function of the
screen dimensions and the mode. -/
def Render_layout (screenWidth screenHeight : ℤ) (mode : BrightnessMode) : Layout :=
  let rectWidth : ℚ := (screenHeight : ℚ) / 6
  let rectHeight : ℚ := rectWidth
  let x : ℚ := ((screenWidth : ℚ) - rectWidth) / 2
  let y : ℚ := ((screenHeight : ℚ) - rectHeight) / 2
  let innerWidth : ℚ := rectWidth / 2
  let innerHeight : ℚ := rectHeight / 2
  let innerX : ℚ := x + (rectWidth - innerWidth) / 2
  let innerY : ℚ := y + (rectHeight - innerHeight) / 2
  let gap : ℚ := (rectWidth - innerWidth) / 2
  { outerDrawn := decide (mode = BrightnessMode.MaxWhite)
    outer := ⟨x, y, x + rectWidth, y + rectHeight⟩
    inner := ⟨innerX, innerY, innerX + innerWidth, innerY + innerHeight⟩
    textRect := ⟨x, y + rectHeight + gap, x + rectWidth, y + rectHeight + gap + 40⟩ }

/-- Embeds `static_cast<int>` applied to a float value (Main.cpp:504): truncation toward
zero. -/
def cppTruncInt (q : ℚ) : ℤ := if 0 ≤ q then ⌊q⌋ else -⌊-q⌋

/-- Left-pad a digit string with zeros to the given width. -/
def padZeros (n : ℕ) (s : String) : String :=
  String.mk (List.replicate (n - s.length) '0') ++ s

/-- Model of `std::to_wstring(float)` = `sprintf "%f"` (Main.cpp:506): the
value rendered with exactly six decimal places, rounding to nearest.  This
program only ever passes it nonnegative values. -/
def toWstringF (q : ℚ) : String :=
  let m : ℤ := round (q * 1000000)
  toString (m / 1000000) ++ "." ++ padZeros 6 (toString (m % 1000000))

/-- Embeds `std::to_wstring(int)` (Main.cpp:504). -/
def toWstringI (n : ℤ) : String := toString n

/-- The brightness text built by `Render` (Main.cpp:501-506): the integer
cast rendering in MaxWhite mode, and the first four characters of the
`%f` rendering (`substr(0, 4)`) in MinBlack mode, followed by `" nits"`. -/
def renderText (s : AppState) : String :=
  let brightness := GetCurrentBrightness s
  if s.mode = BrightnessMode.MaxWhite then
    toWstringI (cppTruncInt brightness) ++ " nits"
  else
    (toWstringF brightness).take 4 ++ " nits"

/-- The spec's description of the MinBlack text: the value truncated to two
decimal places, rendered as `<integer part>.<two decimal digits>`.  Stated
from the spec's words, to be compared with `renderText`. -/
def truncTwoText (q : ℚ) : String :=
  toString ⌊q⌋ ++ "." ++ padZeros 2 (toString (⌊q * 100⌋ % 100))

/-! ## Characterizations of one `ProcessInput` frame -/

theorem repeatLogic_emitted (t : ℕ) (p w : Bool) (ps lr : ℕ)
    (f : AppState → AppState) (a : AppState) :
    (repeatLogic t p w ps lr f a).emitted =
      (p && (!w || (decide (REPEAT_DELAY ≤ t - ps) && decide (REPEAT_INTERVAL ≤ t - lr)))) := by
  cases p <;> cases w <;> simp [repeatLogic] <;> split_ifs <;> simp_all

theorem repeatLogic_pressStart (t : ℕ) (p w : Bool) (ps lr : ℕ)
    (f : AppState → AppState) (a : AppState) :
    (repeatLogic t p w ps lr f a).pressStart = if p && !w then t else ps := by
  cases p <;> cases w <;> simp [repeatLogic] <;> split_ifs <;> simp_all

theorem repeatLogic_lastRep (t : ℕ) (p w : Bool) (ps lr : ℕ)
    (f : AppState → AppState) (a : AppState) :
    (repeatLogic t p w ps lr f a).lastRep =
      if (repeatLogic t p w ps lr f a).emitted then t else lr := by
  cases p <;> cases w <;> simp [repeatLogic] <;> split_ifs <;> simp_all

theorem PI_leftWas (t : ℕ) (i : RawInput) (s : Sys) :
    (ProcessInput t i s).1.inp.leftWasPressed = leftSignal i := rfl

theorem PI_rightWas (t : ℕ) (i : RawInput) (s : Sys) :
    (ProcessInput t i s).1.inp.rightWasPressed = rightSignal i := rfl

theorem PI_spaceWas (t : ℕ) (i : RawInput) (s : Sys) :
    (ProcessInput t i s).1.inp.spaceWasPressed = spaceSignal i := rfl

theorem PI_bWas (t : ℕ) (i : RawInput) (s : Sys) :
    (ProcessInput t i s).1.inp.bWasPressed =
      if i.padConnected then bSignal i else s.inp.bWasPressed := rfl

theorem PI_toggle (t : ℕ) (i : RawInput) (s : Sys) :
    (ProcessInput t i s).2.toggle = (spaceSignal i && !s.inp.spaceWasPressed) := rfl

theorem PI_quit (t : ℕ) (i : RawInput) (s : Sys) :
    (ProcessInput t i s).2.quit = (bSignal i && !s.inp.bWasPressed) := rfl

theorem PI_decrease (t : ℕ) (i : RawInput) (s : Sys) :
    (ProcessInput t i s).2.decrease =
      (leftSignal i && (!s.inp.leftWasPressed ||
        (decide (REPEAT_DELAY ≤ t - s.inp.leftPressStartTime) &&
         decide (REPEAT_INTERVAL ≤ t - s.inp.lastRepeatTime)))) :=
  repeatLogic_emitted t (leftSignal i) s.inp.leftWasPressed s.inp.leftPressStartTime
    s.inp.lastRepeatTime _ _

theorem PI_leftStart (t : ℕ) (i : RawInput) (s : Sys) :
    (ProcessInput t i s).1.inp.leftPressStartTime =
      if leftSignal i && !s.inp.leftWasPressed then t else s.inp.leftPressStartTime :=
  repeatLogic_pressStart t (leftSignal i) s.inp.leftWasPressed s.inp.leftPressStartTime
    s.inp.lastRepeatTime _ _

theorem PI_rightStart (t : ℕ) (i : RawInput) (s : Sys) :
    (ProcessInput t i s).1.inp.rightPressStartTime =
      if rightSignal i && !s.inp.rightWasPressed then t else s.inp.rightPressStartTime := by
  simp only [ProcessInput]
  rw [repeatLogic_pressStart]

theorem PI_increase (t : ℕ) (i : RawInput) (s : Sys) :
    (ProcessInput t i s).2.increase =
      (rightSignal i && (!s.inp.rightWasPressed ||
        (decide (REPEAT_DELAY ≤ t - s.inp.rightPressStartTime) &&
         decide (REPEAT_INTERVAL ≤ t -
           (if (ProcessInput t i s).2.decrease then t else s.inp.lastRepeatTime))))) := by
  simp only [ProcessInput]
  rw [repeatLogic_emitted, repeatLogic_lastRep]

theorem PI_lastRep (t : ℕ) (i : RawInput) (s : Sys) :
    (ProcessInput t i s).1.inp.lastRepeatTime =
      if (ProcessInput t i s).2.increase then t
      else if (ProcessInput t i s).2.decrease then t else s.inp.lastRepeatTime := by
  simp only [ProcessInput]
  rw [repeatLogic_lastRep, repeatLogic_lastRep]

theorem runSys_append (s : Sys) (a b : List (ℕ × RawInput)) :
    runSys s (a ++ b) = runSys (runSys s a) b := by
  induction a generalizing s with
  | nil => rfl
  | cons f tr ih => cases f; simp [runSys, ih]

theorem runEmits_append (s : Sys) (a b : List (ℕ × RawInput)) :
    runEmits s (a ++ b) = runEmits s a ++ runEmits (runSys s a) b := by
  induction a generalizing s with
  | nil => rfl
  | cons f tr ih => cases f; simp [runSys, runEmits, ih]

/-! ## Trace lemmas for edge detection and auto-repeat -/

/-- Number of rising edges of a boolean signal, given the previous sample. -/
def risingEdges : Bool → List Bool → ℕ
  | _, [] => 0
  | prev, b :: l => (if b && !prev then 1 else 0) + risingEdges b l

theorem toggle_count (tr : List (ℕ × RawInput)) : ∀ s : Sys,
    ((runEmits s tr).map Emitted.toggle).count true
      = risingEdges s.inp.spaceWasPressed (tr.map (fun f => spaceSignal f.2)) := by
  induction tr with
  | nil => intro s; rfl
  | cons f tr ih =>
    intro s
    obtain ⟨t, i⟩ := f
    simp only [runEmits, List.map_cons, risingEdges, List.count_cons]
    rw [ih, PI_spaceWas, PI_toggle]
    cases h : spaceSignal i && !s.inp.spaceWasPressed <;> simp [h] <;> omega

theorem quit_count (tr : List (ℕ × RawInput)) : ∀ s : Sys,
    (∀ f ∈ tr, f.2.padConnected = true) →
    ((runEmits s tr).map Emitted.quit).count true
      = risingEdges s.inp.bWasPressed (tr.map (fun f => f.2.buttonB)) := by
  induction tr with
  | nil => intro s _; rfl
  | cons f tr ih =>
    intro s h
    obtain ⟨t, i⟩ := f
    have hc : i.padConnected = true := h (t, i) (by simp)
    simp only [runEmits, List.map_cons, risingEdges, List.count_cons]
    rw [ih _ (fun g hg => h g (List.mem_cons_of_mem _ hg)), PI_bWas, PI_quit]
    simp only [bSignal, hc, Bool.true_and, if_pos]
    cases hb : i.buttonB && !s.inp.bWasPressed <;> simp [hb] <;> omega

theorem inc_none (tr : List (ℕ × RawInput)) : ∀ s : Sys,
    (∀ f ∈ tr, rightSignal f.2 = false) →
    (runEmits s tr).map Emitted.increase = List.replicate tr.length false := by
  induction tr with
  | nil => intro s _; rfl
  | cons f tr ih =>
    intro s h
    obtain ⟨t, i⟩ := f
    have hi : rightSignal i = false := h (t, i) (by simp)
    simp only [runEmits, List.map_cons, List.length_cons, List.replicate_succ]
    rw [ih _ (fun g hg => h g (List.mem_cons_of_mem _ hg)), PI_increase, hi]
    simp

theorem rightWas_after_none (tr : List (ℕ × RawInput)) : ∀ s : Sys,
    (∀ f ∈ tr, rightSignal f.2 = false) → s.inp.rightWasPressed = false →
    (runSys s tr).inp.rightWasPressed = false := by
  induction tr with
  | nil => intro s _ h0; exact h0
  | cons f tr ih =>
    intro s h _
    obtain ⟨t, i⟩ := f
    exact ih _ (fun g hg => h g (List.mem_cons_of_mem _ hg))
      ((PI_rightWas t i s).trans (h (t, i) (by simp)))

theorem inc_window (tr : List (ℕ × RawInput)) : ∀ s : Sys,
    s.inp.rightWasPressed = true →
    (∀ f ∈ tr, rightSignal f.2 = true ∧ f.1 < s.inp.rightPressStartTime + REPEAT_DELAY) →
    (runEmits s tr).map Emitted.increase = List.replicate tr.length false := by
  induction tr with
  | nil => intro s _ _; rfl
  | cons f tr ih =>
    intro s hw h
    obtain ⟨t, i⟩ := f
    obtain ⟨hi, ht⟩ := h (t, i) (by simp)
    have hd : decide (REPEAT_DELAY ≤ t - s.inp.rightPressStartTime) = false := by
      have e : REPEAT_DELAY = 1500 := rfl
      simp; omega
    have hstart : (ProcessInput t i s).1.inp.rightPressStartTime
        = s.inp.rightPressStartTime := by
      rw [PI_rightStart, hw]; simp
    simp only [runEmits, List.map_cons, List.length_cons, List.replicate_succ]
    rw [ih _ ((PI_rightWas t i s).trans hi)
        (by rw [hstart]; exact fun g hg => h g (List.mem_cons_of_mem _ hg)),
      PI_increase, hi, hw, hd]
    simp

theorem dec_none (tr : List (ℕ × RawInput)) : ∀ s : Sys,
    (∀ f ∈ tr, leftSignal f.2 = false) →
    (runEmits s tr).map Emitted.decrease = List.replicate tr.length false := by
  induction tr with
  | nil => intro s _; rfl
  | cons f tr ih =>
    intro s h
    obtain ⟨t, i⟩ := f
    have hi : leftSignal i = false := h (t, i) (by simp)
    simp only [runEmits, List.map_cons, List.length_cons, List.replicate_succ]
    rw [ih _ (fun g hg => h g (List.mem_cons_of_mem _ hg)), PI_decrease, hi]
    simp

theorem leftWas_after_none (tr : List (ℕ × RawInput)) : ∀ s : Sys,
    (∀ f ∈ tr, leftSignal f.2 = false) → s.inp.leftWasPressed = false →
    (runSys s tr).inp.leftWasPressed = false := by
  induction tr with
  | nil => intro s _ h0; exact h0
  | cons f tr ih =>
    intro s h _
    obtain ⟨t, i⟩ := f
    exact ih _ (fun g hg => h g (List.mem_cons_of_mem _ hg))
      ((PI_leftWas t i s).trans (h (t, i) (by simp)))

theorem dec_window (tr : List (ℕ × RawInput)) : ∀ s : Sys,
    s.inp.leftWasPressed = true →
    (∀ f ∈ tr, leftSignal f.2 = true ∧ f.1 < s.inp.leftPressStartTime + REPEAT_DELAY) →
    (runEmits s tr).map Emitted.decrease = List.replicate tr.length false := by
  induction tr with
  | nil => intro s _ _; rfl
  | cons f tr ih =>
    intro s hw h
    obtain ⟨t, i⟩ := f
    obtain ⟨hi, ht⟩ := h (t, i) (by simp)
    have hd : decide (REPEAT_DELAY ≤ t - s.inp.leftPressStartTime) = false := by
      have e : REPEAT_DELAY = 1500 := rfl
      simp; omega
    have hstart : (ProcessInput t i s).1.inp.leftPressStartTime
        = s.inp.leftPressStartTime := by
      rw [PI_leftStart, hw]; simp
    simp only [runEmits, List.map_cons, List.length_cons, List.replicate_succ]
    rw [ih _ ((PI_leftWas t i s).trans hi)
        (by rw [hstart]; exact fun g hg => h g (List.mem_cons_of_mem _ hg)),
      PI_decrease, hi, hw, hd]
    simp

/-! ## Reachable states and the hundredth-multiple invariant -/

/-- States reachable from the program's initial state by any sequence of
`ProcessInput` frames. -/
inductive Reachable : Sys → Prop where
  | init : Reachable initialSys
  | step (t : ℕ) (i : RawInput) {s : Sys} : Reachable s → Reachable (ProcessInput t i s).1

/-- Holds when `q` is an integer multiple of 1/100. -/
def isCent (q : ℚ) : Prop := ∃ n : ℤ, q = n / 100

/-- Both stored brightness fields are nonnegative multiples of 1/100. -/
def AppInv (a : AppState) : Prop :=
  (0 ≤ a.brightnessMaxWhite ∧ isCent a.brightnessMaxWhite) ∧
    (0 ≤ a.brightnessMinBlack ∧ isCent a.brightnessMinBlack)

theorem isCent_add {a b : ℚ} (ha : isCent a) (hb : isCent b) : isCent (a + b) := by
  obtain ⟨n, rfl⟩ := ha
  obtain ⟨m, rfl⟩ := hb
  exact ⟨n + m, by push_cast; ring⟩

theorem isCent_sub {a b : ℚ} (ha : isCent a) (hb : isCent b) : isCent (a - b) := by
  obtain ⟨n, rfl⟩ := ha
  obtain ⟨m, rfl⟩ := hb
  exact ⟨n - m, by push_cast; ring⟩

theorem isCent_cppMax {a b : ℚ} (ha : isCent a) (hb : isCent b) : isCent (cppMax a b) := by
  unfold cppMax
  split_ifs <;> assumption

theorem isCent_cppMin {a b : ℚ} (ha : isCent a) (hb : isCent b) : isCent (cppMin a b) := by
  unfold cppMin
  split_ifs <;> assumption

theorem cppMin_nonneg {a b : ℚ} (ha : 0 ≤ a) (hb : 0 ≤ b) : 0 ≤ cppMin a b := by
  unfold cppMin
  split_ifs <;> assumption

theorem isCent_current {a : AppState} (h : AppInv a) : isCent (GetCurrentBrightness a) := by
  unfold GetCurrentBrightness
  split_ifs
  · exact h.1.2
  · exact h.2.2

theorem current_nonneg {a : AppState} (h : AppInv a) : 0 ≤ GetCurrentBrightness a := by
  unfold GetCurrentBrightness
  split_ifs
  · exact h.1.1
  · exact h.2.1

theorem isCent_increment (a : AppState) : isCent (GetIncrement a) := by
  unfold GetIncrement
  split_ifs
  · exact ⟨1000, by norm_num⟩
  · exact ⟨1, by norm_num⟩

theorem increment_nonneg (a : AppState) : 0 ≤ GetIncrement a := by
  unfold GetIncrement
  split_ifs <;> norm_num

theorem isCent_maxBrightness (a : AppState) : isCent (GetMaxBrightness a) := by
  unfold GetMaxBrightness
  split_ifs
  · exact ⟨1000000, by norm_num⟩
  · exact ⟨100, by norm_num⟩

theorem maxBrightness_nonneg (a : AppState) : 0 ≤ GetMaxBrightness a := by
  unfold GetMaxBrightness
  split_ifs <;> norm_num

theorem AppInv_toggle {a : AppState} (h : AppInv a) : AppInv (ToggleMode a) := h

theorem AppInv_set {a : AppState} {b : ℚ} (h : AppInv a) (hb : 0 ≤ b ∧ isCent b) :
    AppInv (SetCurrentBrightness a b) := by
  obtain ⟨m, mw, mb, c⟩ := a
  cases m with
  | MaxWhite => exact ⟨hb, h.2⟩
  | MinBlack => exact ⟨h.1, hb⟩

theorem repeatLogic_app (t : ℕ) (p w : Bool) (ps lr : ℕ)
    (f : AppState → AppState) (a : AppState) :
    (repeatLogic t p w ps lr f a).app =
      if (repeatLogic t p w ps lr f a).emitted then f a else a := by
  cases p <;> cases w <;> simp [repeatLogic] <;> split_ifs <;> simp_all

theorem AppInv_repeatLogic (t : ℕ) (p w : Bool) (ps lr : ℕ)
    {f : AppState → AppState} (hf : ∀ a, AppInv a → AppInv (f a))
    {a : AppState} (ha : AppInv a) : AppInv (repeatLogic t p w ps lr f a).app := by
  rw [repeatLogic_app]
  split_ifs
  · exact hf a ha
  · exact ha

theorem AppInv_initial : AppInv initialApp :=
  ⟨⟨by norm_num [initialApp], ⟨80000, by norm_num [initialApp]⟩⟩,
    ⟨by norm_num [initialApp], ⟨10, by norm_num [initialApp]⟩⟩⟩

/-- Every reachable state has both brightness fields nonnegative multiples
of 1/100 (even through the stale-increment frames exhibited for C1). -/
theorem reachable_AppInv {s : Sys} (h : Reachable s) : AppInv s.app := by
  induction h with
  | init => exact AppInv_initial
  | step t i hs ih =>
    rename_i s'
    show AppInv (ProcessInput t i s').1.app
    simp only [ProcessInput]
    refine AppInv_repeatLogic _ _ _ _ _ ?_ (AppInv_repeatLogic _ _ _ _ _ ?_ ?_)
    · intro a ha
      refine AppInv_set ha ⟨?_, ?_⟩
      · exact cppMin_nonneg (maxBrightness_nonneg _)
          (add_nonneg (current_nonneg ha) (increment_nonneg _))
      · exact isCent_cppMin (isCent_maxBrightness _)
          (isCent_add (isCent_current ha) (isCent_increment _))
    · intro a ha
      refine AppInv_set ha ⟨?_, ?_⟩
      · unfold cppMax
        split_ifs with hlt
        · exact le_refl 0
        · exact le_of_not_lt hlt
      · exact isCent_cppMax ⟨0, by norm_num⟩
          (isCent_sub (isCent_current ha) (isCent_increment _))
    · split_ifs
      · exact AppInv_toggle ih
      · exact ih

theorem dec_indep_aux (tr1 : List (ℕ × RawInput)) :
    ∀ (tr2 : List (ℕ × RawInput)) (s1 s2 : Sys),
    tr1.map Prod.fst = tr2.map Prod.fst →
    tr1.map (fun f => leftSignal f.2) = tr2.map (fun f => leftSignal f.2) →
    (∀ f ∈ tr1, leftSignal f.2 = true → rightSignal f.2 = false) →
    (∀ f ∈ tr2, leftSignal f.2 = true → rightSignal f.2 = false) →
    s1.inp.leftWasPressed = s2.inp.leftWasPressed →
    s1.inp.leftPressStartTime = s2.inp.leftPressStartTime →
    (s1.inp.leftWasPressed = true → s1.inp.lastRepeatTime = s2.inp.lastRepeatTime) →
    (runEmits s1 tr1).map Emitted.decrease = (runEmits s2 tr2).map Emitted.decrease := by
  induction tr1 with
  | nil =>
    intro tr2 _ _ ht _ _ _ _ _ _
    cases tr2 with
    | nil => rfl
    | cons g tr2' => simp at ht
  | cons f tr ih =>
    intro tr2 s1 s2 ht hl h1 h2 hw hps hlr
    cases tr2 with
    | nil => simp at ht
    | cons g tr2' =>
      obtain ⟨t, i⟩ := f
      obtain ⟨t', j⟩ := g
      simp only [List.map_cons, List.cons.injEq] at ht hl
      obtain ⟨htt, ht'⟩ := ht
      obtain ⟨hll, hl'⟩ := hl
      subst htt
      have hdec : (ProcessInput t i s1).2.decrease = (ProcessInput t j s2).2.decrease := by
        rw [PI_decrease, PI_decrease, ← hll, hw, hps]
        cases hLf : leftSignal i with
        | false => simp
        | true =>
          cases hwb : s2.inp.leftWasPressed with
          | false => simp
          | true => rw [hlr (hw.trans hwb)]
      simp only [runEmits, List.map_cons]
      rw [hdec]
      congr 1
      refine ih tr2' _ _ ht' hl'
        (fun g hg => h1 g (List.mem_cons_of_mem _ hg))
        (fun g hg => h2 g (List.mem_cons_of_mem _ hg)) ?_ ?_ ?_
      · rw [PI_leftWas, PI_leftWas, hll]
      · rw [PI_leftStart, PI_leftStart, ← hll, hw, hps]
      · intro hnext
        have hLi : leftSignal i = true := (PI_leftWas t i s1).symm.trans hnext
        have hRi : rightSignal i = false := h1 (t, i) (by simp) hLi
        have hRj : rightSignal j = false := h2 (t, j) (by simp) (hll ▸ hLi)
        have hinc1 : (ProcessInput t i s1).2.increase = false := by
          rw [PI_increase, hRi]; simp
        have hinc2 : (ProcessInput t j s2).2.increase = false := by
          rw [PI_increase, hRj]; simp
        rw [PI_lastRep, PI_lastRep, hinc1, hinc2, hdec]
        cases hd2 : (ProcessInput t j s2).2.decrease with
        | true => simp
        | false =>
          simp only [Bool.false_eq_true, if_false]
          have hwb : s1.inp.leftWasPressed = true := by
            by_contra hc
            have hcf : s1.inp.leftWasPressed = false := by simpa using hc
            have hdt : (ProcessInput t i s1).2.decrease = true := by
              rw [PI_decrease, hLi, hcf]; simp
            rw [hdec, hd2] at hdt
            exact absurd hdt (by simp)
          exact hlr hwb

theorem inc_indep_aux (tr1 : List (ℕ × RawInput)) :
    ∀ (tr2 : List (ℕ × RawInput)) (s1 s2 : Sys),
    tr1.map Prod.fst = tr2.map Prod.fst →
    tr1.map (fun f => rightSignal f.2) = tr2.map (fun f => rightSignal f.2) →
    (∀ f ∈ tr1, rightSignal f.2 = true → leftSignal f.2 = false) →
    (∀ f ∈ tr2, rightSignal f.2 = true → leftSignal f.2 = false) →
    s1.inp.rightWasPressed = s2.inp.rightWasPressed →
    s1.inp.rightPressStartTime = s2.inp.rightPressStartTime →
    (s1.inp.rightWasPressed = true → s1.inp.lastRepeatTime = s2.inp.lastRepeatTime) →
    (runEmits s1 tr1).map Emitted.increase = (runEmits s2 tr2).map Emitted.increase := by
  induction tr1 with
  | nil =>
    intro tr2 _ _ ht _ _ _ _ _ _
    cases tr2 with
    | nil => rfl
    | cons g tr2' => simp at ht
  | cons f tr ih =>
    intro tr2 s1 s2 ht hl h1 h2 hw hps hlr
    cases tr2 with
    | nil => simp at ht
    | cons g tr2' =>
      obtain ⟨t, i⟩ := f
      obtain ⟨t', j⟩ := g
      simp only [List.map_cons, List.cons.injEq] at ht hl
      obtain ⟨htt, ht'⟩ := ht
      obtain ⟨hll, hl'⟩ := hl
      subst htt
      have hinc : (ProcessInput t i s1).2.increase = (ProcessInput t j s2).2.increase := by
        rw [PI_increase, PI_increase, ← hll, hw, hps]
        cases hRf : rightSignal i with
        | false => simp
        | true =>
          have hLi : leftSignal i = false := h1 (t, i) (by simp) hRf
          have hLj : leftSignal j = false := h2 (t, j) (by simp) (hll ▸ hRf)
          have hd1 : (ProcessInput t i s1).2.decrease = false := by
            rw [PI_decrease, hLi]; simp
          have hd2 : (ProcessInput t j s2).2.decrease = false := by
            rw [PI_decrease, hLj]; simp
          rw [hd1, hd2]
          cases hwb : s2.inp.rightWasPressed with
          | false => simp
          | true => rw [hlr (hw.trans hwb)]
      simp only [runEmits, List.map_cons]
      rw [hinc]
      congr 1
      refine ih tr2' _ _ ht' hl'
        (fun g hg => h1 g (List.mem_cons_of_mem _ hg))
        (fun g hg => h2 g (List.mem_cons_of_mem _ hg)) ?_ ?_ ?_
      · rw [PI_rightWas, PI_rightWas, hll]
      · rw [PI_rightStart, PI_rightStart, ← hll, hw, hps]
      · intro hnext
        have hRi : rightSignal i = true := (PI_rightWas t i s1).symm.trans hnext
        have hLi : leftSignal i = false := h1 (t, i) (by simp) hRi
        have hLj : leftSignal j = false := h2 (t, j) (by simp) (hll ▸ hRi)
        have hd1 : (ProcessInput t i s1).2.decrease = false := by
          rw [PI_decrease, hLi]; simp
        have hd2 : (ProcessInput t j s2).2.decrease = false := by
          rw [PI_decrease, hLj]; simp
        rw [PI_lastRep, PI_lastRep, hd1, hd2, hinc]
        cases hi2 : (ProcessInput t j s2).2.increase with
        | true => simp
        | false =>
          simp only [Bool.false_eq_true, if_false]
          have hwb : s1.inp.rightWasPressed = true := by
            by_contra hc
            have hcf : s1.inp.rightWasPressed = false := by simpa using hc
            have hit : (ProcessInput t i s1).2.increase = true := by
              rw [PI_increase, hRi, hcf]; simp
            rw [hinc, hi2] at hit
            exact absurd hit (by simp)
          exact hlr hwb

/-! ## Claim theorems -/

/-- The input sample for the C1 failing frame: SPACE (toggle) and RIGHT
(increase) pressed in the same frame. -/
def c1Input : RawInput := keys false true true

/-- C1: the claimed invariant `currentNits() ∈ [0, maxForMode(mode)]` is
violated by the code.  `ProcessInput` reads `INCREMENT` and `MAX_BRIGHTNESS`
from the mode BEFORE handling the space toggle, so one frame (from the
initial state) in which toggle and increase fire together applies the
MaxWhite step 10 and max 10000 to the MinBlack field, storing
`min(10000, 0.1 + 10) = 10.1 > maxForMode(MinBlack) = 1`. -/
theorem c1_clamp_violation :
    (ProcessInput 0 c1Input initialSys).1.app.mode = BrightnessMode.MinBlack ∧
    (ProcessInput 0 c1Input initialSys).1.app.brightnessMinBlack = 101/10 ∧
    GetMaxBrightness (ProcessInput 0 c1Input initialSys).1.app = 1 ∧
    ¬ (GetCurrentBrightness (ProcessInput 0 c1Input initialSys).1.app
        ≤ GetMaxBrightness (ProcessInput 0 c1Input initialSys).1.app) := by
  with_unfolding_all decide

/-- C2: `ToggleMode` alters neither stored nits value and flips the mode, so
applying it twice restores the mode, `maxWhiteNits` and `minBlackNits` to
exactly their prior values. -/
theorem c2_toggle_roundtrip (s : AppState) :
    (ToggleMode s).brightnessMaxWhite = s.brightnessMaxWhite ∧
    (ToggleMode s).brightnessMinBlack = s.brightnessMinBlack ∧
    (ToggleMode s).mode ≠ s.mode ∧
    (ToggleMode (ToggleMode s)).mode = s.mode ∧
    (ToggleMode (ToggleMode s)).brightnessMaxWhite = s.brightnessMaxWhite ∧
    (ToggleMode (ToggleMode s)).brightnessMinBlack = s.brightnessMinBlack := by
  obtain ⟨m, mw, mb, c⟩ := s
  cases m <;> simp [ToggleMode]

/-- C7: the nits → color encoding is `n ↦ (n/80, n/80, n/80)` for every `n`
(no clamping), and after every brightness change (`SetCurrentBrightness`) or
mode toggle (`ToggleMode`) the stored display color is the encoding of the
now-active nits value. -/
theorem c7_encode_color (n : ℚ) (s : AppState) (b : ℚ) :
    encode n = ⟨n / 80, n / 80, n / 80⟩ ∧
    (SetCurrentBrightness s b).innerBrushColor =
      encode (GetCurrentBrightness (SetCurrentBrightness s b)) ∧
    (ToggleMode s).innerBrushColor =
      encode (GetCurrentBrightness (ToggleMode s)) := by
  refine ⟨rfl, ?_, rfl⟩
  obtain ⟨m, mw, mb, c⟩ := s
  cases m <;> simp [SetCurrentBrightness, GetCurrentBrightness]

/-- C8: the layout is a pure function of `(screenWidth, screenHeight, mode)`;
the outer square has side `screenHeight/6` and is centered on screen; it is
drawn iff the mode is MaxWhite; the inner square has half the outer's side,
is centered within the outer square, and occupies the identical position in
both modes. -/
theorem c8_layout (w h : ℤ) (m : BrightnessMode) :
    (Render_layout w h m).outer.right - (Render_layout w h m).outer.left = (h : ℚ) / 6 ∧
    (Render_layout w h m).outer.bottom - (Render_layout w h m).outer.top = (h : ℚ) / 6 ∧
    (Render_layout w h m).outer.left + (Render_layout w h m).outer.right = (w : ℚ) ∧
    (Render_layout w h m).outer.top + (Render_layout w h m).outer.bottom = (h : ℚ) ∧
    ((Render_layout w h m).outerDrawn = true ↔ m = BrightnessMode.MaxWhite) ∧
    (Render_layout w h m).inner = (Render_layout w h BrightnessMode.MaxWhite).inner ∧
    (Render_layout w h m).inner.right - (Render_layout w h m).inner.left = (h : ℚ) / 6 / 2 ∧
    (Render_layout w h m).inner.bottom - (Render_layout w h m).inner.top = (h : ℚ) / 6 / 2 ∧
    (Render_layout w h m).inner.left - (Render_layout w h m).outer.left =
      (Render_layout w h m).outer.right - (Render_layout w h m).inner.right ∧
    (Render_layout w h m).inner.top - (Render_layout w h m).outer.top =
      (Render_layout w h m).outer.bottom - (Render_layout w h m).inner.bottom := by
  cases m <;>
    refine ⟨by simp [Render_layout]; try ring, by simp [Render_layout]; try ring,
      by simp [Render_layout]; try ring, by simp [Render_layout]; try ring,
      by simp [Render_layout], rfl,
      by simp [Render_layout]; try ring, by simp [Render_layout]; try ring,
      by simp [Render_layout]; try ring, by simp [Render_layout]; try ring⟩

/-- C10: an increment or decrement writes only the currently active mode's
nits field: `SetCurrentBrightness` (and hence the decrease/increase updates
built on it) leaves the mode unchanged and leaves the inactive mode's stored
nits value exactly as it was. -/
theorem c10_inactive_preserved (s : AppState) (b : ℚ) :
    (SetCurrentBrightness s b).mode = s.mode ∧
    inactiveNits (SetCurrentBrightness s b) = inactiveNits s ∧
    (decreaseOp s).mode = s.mode ∧
    inactiveNits (decreaseOp s) = inactiveNits s ∧
    (increaseOp s).mode = s.mode ∧
    inactiveNits (increaseOp s) = inactiveNits s := by
  obtain ⟨m, mw, mb, c⟩ := s
  cases m <;>
    simp [SetCurrentBrightness, decreaseOp, increaseOp, inactiveNits]

/-- States reachable by applying the three atomic brightness operations
sequentially (each reading its step and bound from the then-current mode).
This is the operation granularity the C1 claim describes; the code bug is
that a single `ProcessInput` frame can fuse a toggle with an
increase/decrease computed from the pre-toggle step and bound. -/
inductive OpReachable : AppState → Prop where
  | init : OpReachable initialApp
  | dec {a : AppState} : OpReachable a → OpReachable (decreaseOp a)
  | inc {a : AppState} : OpReachable a → OpReachable (increaseOp a)
  | tog {a : AppState} : OpReachable a → OpReachable (ToggleMode a)

/-- Supporting result for C1: at the sequential-operation granularity the
invariant does hold — both fields stay within their mode's range, so
`currentNits() ∈ [0, maxForMode(mode)]`.  The violation exhibited in
`c1_clamp_violation` therefore comes precisely from the frame-level fusion
of toggle with a stale increment. -/
theorem opReachable_fields {a : AppState} (h : OpReachable a) :
    (0 ≤ a.brightnessMaxWhite ∧ a.brightnessMaxWhite ≤ 10000) ∧
      (0 ≤ a.brightnessMinBlack ∧ a.brightnessMinBlack ≤ 1) := by
  induction h with
  | init => norm_num [initialApp]
  | dec h ih =>
    rename_i b
    obtain ⟨m, mw, mb, c⟩ := b
    cases m <;>
      simp only [decreaseOp, SetCurrentBrightness, GetCurrentBrightness, GetIncrement,
        cppMax] at * <;>
      split_ifs <;> dsimp only <;>
      constructor <;> constructor <;> linarith [ih.1.1, ih.1.2, ih.2.1, ih.2.2]
  | inc h ih =>
    rename_i b
    obtain ⟨m, mw, mb, c⟩ := b
    cases m <;>
      simp only [increaseOp, SetCurrentBrightness, GetCurrentBrightness, GetIncrement,
        GetMaxBrightness, cppMin] at * <;>
      split_ifs <;> dsimp only <;>
      constructor <;> constructor <;> linarith [ih.1.1, ih.1.2, ih.2.1, ih.2.2]
  | tog h ih => exact ih

/-- Supporting result for C1 (continued): at the sequential-operation
granularity `currentNits() ∈ [0, maxForMode(mode)]` always holds. -/
theorem opReachable_bounds {a : AppState} (h : OpReachable a) :
    0 ≤ GetCurrentBrightness a ∧ GetCurrentBrightness a ≤ GetMaxBrightness a := by
  have key := opReachable_fields h
  unfold GetCurrentBrightness GetMaxBrightness
  split_ifs
  · exact ⟨key.1.1, key.1.2⟩
  · exact ⟨key.2.1, key.2.2⟩

def c3TraceA : List (ℕ × RawInput) :=
  [(0, keys true false false), (1500, keys true false false),
   (1600, keys true false false), (1700, keys true false false)]

def c3TraceB : List (ℕ × RawInput) :=
  [(0, keys true false false), (1500, keys true false false),
   (1600, keys true true false), (1700, keys true false false)]

/-- C3 counterexample: two input traces with identical clocks and identical
decrease (left) signals, differing only in the increase (right) signal
(pressed at t = 1600 in the second trace), produce different Decrease
command sequences — because `lastRepeatTime` is shared, the fresh right
press at 1600 postpones the left repeat that was due at t = 1700.  So the
Decrease output is NOT a function of the decrease signal trace and the
clock alone. -/
theorem c3_counterexample :
    c3TraceA.map Prod.fst = c3TraceB.map Prod.fst ∧
    c3TraceA.map (fun f => leftSignal f.2) = c3TraceB.map (fun f => leftSignal f.2) ∧
    (runEmits initialSys c3TraceA).map Emitted.decrease
      ≠ (runEmits initialSys c3TraceB).map Emitted.decrease := by
  with_unfolding_all decide

/-- C3 amended: press-edge detection is per-signal, but the auto-repeat
timestamp (`lastRepeatTime`) is shared between decrease and increase.
Independence therefore holds for traces in which the two signals are never
active in the same frame: for two such traces with identical clocks, equal
decrease signal columns give equal Decrease command sequences, and equal
increase signal columns give equal Increase command sequences. -/
theorem c3_amended_independence (tr1 tr2 : List (ℕ × RawInput))
    (ht : tr1.map Prod.fst = tr2.map Prod.fst)
    (h1 : ∀ f ∈ tr1, ¬(leftSignal f.2 = true ∧ rightSignal f.2 = true))
    (h2 : ∀ f ∈ tr2, ¬(leftSignal f.2 = true ∧ rightSignal f.2 = true)) :
    ((tr1.map (fun f => leftSignal f.2) = tr2.map (fun f => leftSignal f.2)) →
      (runEmits initialSys tr1).map Emitted.decrease
        = (runEmits initialSys tr2).map Emitted.decrease) ∧
    ((tr1.map (fun f => rightSignal f.2) = tr2.map (fun f => rightSignal f.2)) →
      (runEmits initialSys tr1).map Emitted.increase
        = (runEmits initialSys tr2).map Emitted.increase) := by
  constructor
  · intro hl
    refine dec_indep_aux tr1 tr2 initialSys initialSys ht hl ?_ ?_ rfl rfl (fun _ => rfl)
    · intro f hf hL
      have h := h1 f hf
      rw [hL] at h
      simpa using h
    · intro f hf hL
      have h := h2 f hf
      rw [hL] at h
      simpa using h
  · intro hl
    refine inc_indep_aux tr1 tr2 initialSys initialSys ht hl ?_ ?_ rfl rfl (fun _ => rfl)
    · intro f hf hR
      have h := h1 f hf
      rw [hR] at h
      simpa using h
    · intro f hf hR
      have h := h2 f hf
      rw [hR] at h
      simpa using h

def c3W1 : List (ℕ × RawInput) := [(0, keys true false false), (100, keys false false false)]

def c3W2 : List (ℕ × RawInput) := [(0, keys true false true), (100, keys false true false)]

/-- Witness for the amended C3: two concrete non-simultaneous traces with the
same clock and the same decrease column (the second also toggles mode at
t = 0 and presses increase at t = 100) give identical Decrease sequences. -/
theorem c3_amended_witness :
    (runEmits initialSys c3W1).map Emitted.decrease
      = (runEmits initialSys c3W2).map Emitted.decrease :=
  (c3_amended_independence c3W1 c3W2 (by decide) (by decide) (by decide)).1 (by decide)

def holdRightInput : RawInput := keys false true false

def idleInput : RawInput := keys false false false

/-- An increase signal held from t = 0 through t = 2000, polled every 100 ms. -/
def c4HoldTrace : List (ℕ × RawInput) :=
  (List.range 21).map (fun k => (100 * k, holdRightInput))

/-- The spec scenario: one 100 ms tap of increase (800 → 810), release, then
increase held from t = 200 through t = 2200 (a 2000 ms ≥ 1500 + 400 hold),
polled every 100 ms. -/
def c4ScenarioTrace : List (ℕ × RawInput) :=
  (0, holdRightInput) :: (100, idleInput) ::
    (List.range 21).map (fun k => (200 + 100 * k, holdRightInput))

/-- C4 counterexample: an increase signal held for 2000 ms does NOT emit
1 + floor((2000−1500)/200) = 3 commands, and the spec scenario (tap to 810,
then hold ≥ 1900 ms) does NOT end at 840 nits: the first auto-repeat fires
already when the 1500 ms delay expires (the shared last-repeat timestamp was
seeded at press time, so 1500 ≥ 200 ms have elapsed), giving one more
repeat than the claim counts. -/
theorem c4_counterexample :
    ((runEmits initialSys c4HoldTrace).map Emitted.increase).count true ≠ 1 + 2 ∧
    (runSys initialSys c4ScenarioTrace).app.brightnessMaxWhite ≠ 840 := by
  with_unfolding_all decide

/-- C4 amended: a held increase signal of 2000 ms (100 ms polling) emits 1
initial command plus 3 repeats — at 1500, 1700 and 1900 ms after the press —
and the spec scenario (800 → tap → 810 → hold 2000 ms) ends at
810 + 10 + 10·3 = 850 nits with 5 Increase commands in total. -/
theorem c4_amended_counts :
    (runEmits initialSys c4HoldTrace).map Emitted.increase
      = [true, false, false, false, false, false, false, false, false, false,
         false, false, false, false, false, true, false, true, false, true, false] ∧
    ((runEmits initialSys c4HoldTrace).map Emitted.increase).count true = 1 + 3 ∧
    (runSys initialSys c4ScenarioTrace).app.brightnessMaxWhite = 850 ∧
    ((runEmits initialSys c4ScenarioTrace).map Emitted.increase).count true = 5 := by
  set_option maxRecDepth 4000 in with_unfolding_all decide

/-- C5: for each of the increase and decrease inputs, a press episode
(frames: signal low, one rising-edge frame, held frames all strictly inside
the 1500 ms delay window, then signal low) emits exactly one command: it
fires on the press-edge frame and nowhere else.  In particular a tap shorter
than the delay produces exactly one command in total.  The other input
signals are unconstrained. -/
theorem c5_edge_and_tap :
    (∀ (s : Sys) (pre mid post : List (ℕ × RawInput)) (t0 : ℕ) (i0 : RawInput),
      s.inp.rightWasPressed = false →
      (∀ f ∈ pre, rightSignal f.2 = false) →
      rightSignal i0 = true →
      (∀ f ∈ mid, rightSignal f.2 = true ∧ f.1 < t0 + REPEAT_DELAY) →
      (∀ f ∈ post, rightSignal f.2 = false) →
      (runEmits s (pre ++ (t0, i0) :: (mid ++ post))).map Emitted.increase
        = List.replicate pre.length false
            ++ true :: List.replicate (mid.length + post.length) false) ∧
    (∀ (s : Sys) (pre mid post : List (ℕ × RawInput)) (t0 : ℕ) (i0 : RawInput),
      s.inp.leftWasPressed = false →
      (∀ f ∈ pre, leftSignal f.2 = false) →
      leftSignal i0 = true →
      (∀ f ∈ mid, leftSignal f.2 = true ∧ f.1 < t0 + REPEAT_DELAY) →
      (∀ f ∈ post, leftSignal f.2 = false) →
      (runEmits s (pre ++ (t0, i0) :: (mid ++ post))).map Emitted.decrease
        = List.replicate pre.length false
            ++ true :: List.replicate (mid.length + post.length) false) := by
  constructor
  · intro s pre mid post t0 i0 h0 hpre hi0 hmid hpost
    have hw1 : (runSys s pre).inp.rightWasPressed = false :=
      rightWas_after_none pre s hpre h0
    have hedge : (ProcessInput t0 i0 (runSys s pre)).2.increase = true := by
      rw [PI_increase, hi0, hw1]; simp
    have hw2 : (ProcessInput t0 i0 (runSys s pre)).1.inp.rightWasPressed = true :=
      (PI_rightWas t0 i0 _).trans hi0
    have hs2 : (ProcessInput t0 i0 (runSys s pre)).1.inp.rightPressStartTime = t0 := by
      rw [PI_rightStart, hi0, hw1]; simp
    rw [runEmits_append, List.map_append, inc_none pre s hpre]
    simp only [runEmits, List.map_cons]
    rw [hedge, runEmits_append, List.map_append, inc_window mid _ hw2 (by rw [hs2]; exact hmid),
      inc_none post _ hpost, List.append_cancel_left_eq, ← List.replicate_add]
  · intro s pre mid post t0 i0 h0 hpre hi0 hmid hpost
    have hw1 : (runSys s pre).inp.leftWasPressed = false :=
      leftWas_after_none pre s hpre h0
    have hedge : (ProcessInput t0 i0 (runSys s pre)).2.decrease = true := by
      rw [PI_decrease, hi0, hw1]; simp
    have hw2 : (ProcessInput t0 i0 (runSys s pre)).1.inp.leftWasPressed = true :=
      (PI_leftWas t0 i0 _).trans hi0
    have hs2 : (ProcessInput t0 i0 (runSys s pre)).1.inp.leftPressStartTime = t0 := by
      rw [PI_leftStart, hi0, hw1]; simp
    rw [runEmits_append, List.map_append, dec_none pre s hpre]
    simp only [runEmits, List.map_cons]
    rw [hedge, runEmits_append, List.map_append, dec_window mid _ hw2 (by rw [hs2]; exact hmid),
      dec_none post _ hpost, List.append_cancel_left_eq, ← List.replicate_add]

/-- Witness for C5: a concrete 100 ms tap of the increase signal (pressed at
t = 0 and t = 100, released at t = 200) emits exactly one Increase command,
on the press-edge frame. -/
theorem c5_witness :
    (runEmits initialSys
        [(0, keys false true false), (100, keys false true false),
         (200, keys false false false)]).map Emitted.increase
      = [true, false, false] := by
  have h := c5_edge_and_tap.1 initialSys [] [(100, keys false true false)]
    [(200, keys false false false)] 0 (keys false true false)
    rfl (by simp) (by decide) (by decide) (by decide)
  simpa using h

/-- C6: toggle and quit use one-shot edge detection with no auto-repeat: over
any input trace the number of mode toggles equals the number of rising edges
of the combined SPACE-or-X signal (one per contiguous held interval, however
long), and — while a gamepad is connected — the number of quit emissions
equals the number of rising edges of the B button. -/
theorem c6_one_shot_edges (tr : List (ℕ × RawInput)) :
    ((runEmits initialSys tr).map Emitted.toggle).count true
      = risingEdges false (tr.map (fun f => spaceSignal f.2)) ∧
    ((∀ f ∈ tr, f.2.padConnected = true) →
      ((runEmits initialSys tr).map Emitted.quit).count true
        = risingEdges false (tr.map (fun f => f.2.buttonB))) :=
  ⟨toggle_count tr initialSys, fun h => quit_count tr initialSys h⟩

theorem minBlack_format_ball : ∀ k : ℕ, k < 101 →
    (toWstringF ((k : ℚ) / 100)).take 4 = truncTwoText ((k : ℚ) / 100) := by
  with_unfolding_all decide

/-- C9: the displayed text is `<value> nits`; in MaxWhite mode the value is
the current nits rendered as an integer (its floor — every reachable value
is nonnegative, so the C++ toward-zero cast is the floor), and in MinBlack
mode, for every reachable value in [0, 1], the value truncated to two
decimal places. -/
theorem c9_display_text (s : Sys) (h : Reachable s) :
    (s.app.mode = BrightnessMode.MaxWhite →
      renderText s.app = toString ⌊s.app.brightnessMaxWhite⌋ ++ " nits") ∧
    (s.app.mode = BrightnessMode.MinBlack → s.app.brightnessMinBlack ≤ 1 →
      renderText s.app = truncTwoText s.app.brightnessMinBlack ++ " nits") := by
  have hinv := reachable_AppInv h
  constructor
  · intro hm
    simp only [renderText, GetCurrentBrightness, hm, if_pos, toWstringI, cppTruncInt]
    rw [if_pos hinv.1.1]
  · intro hm hle
    simp only [renderText, GetCurrentBrightness, hm]
    simp only [show (BrightnessMode.MinBlack = BrightnessMode.MaxWhite) = False by simp,
      if_false]
    obtain ⟨n, hn⟩ := hinv.2.2
    have h0 : (0 : ℚ) ≤ (n : ℚ) := by
      have h01 := hinv.2.1
      rw [hn] at h01
      linarith
    have h1 : (n : ℚ) ≤ 100 := by
      rw [hn] at hle
      linarith
    have hn0 : 0 ≤ n := by exact_mod_cast h0
    have hk : ((n.toNat : ℚ)) = (n : ℚ) := by exact_mod_cast Int.toNat_of_nonneg hn0
    have hlt : n.toNat < 101 := by
      have : n ≤ 100 := by exact_mod_cast h1
      omega
    have hfmt := minBlack_format_ball n.toNat hlt
    rw [hk] at hfmt
    rw [hn, hfmt]

/-- Witness for C9: the initial state shows `800 nits`; after one frame that
presses SPACE (toggling to MinBlack at its stored 0.1 nits) the text is
`0.10 nits`. -/
theorem c9_witness :
    renderText initialSys.app = "800 nits" ∧
    renderText (ProcessInput 0 (keys false false true) initialSys).1.app = "0.10 nits" := by
  constructor
  · rw [(c9_display_text initialSys Reachable.init).1 rfl]
    with_unfolding_all decide
  · rw [(c9_display_text _ (Reachable.step 0 (keys false false true) Reachable.init)).2
      (by with_unfolding_all decide) (by with_unfolding_all decide)]
    with_unfolding_all decide

/-- A gamepad input sample with given B and X buttons. -/
def padIn (bB bX : Bool) : RawInput :=
  { keyLeft := false, keyRight := false, keySpace := false, padConnected := true
    dpadLeft := false, dpadRight := false, thumbLX := 0
    buttonB := bB, buttonX := bX }

def c6Trace : List (ℕ × RawInput) :=
  [(0, padIn true true), (50, padIn true true), (100, padIn false true),
   (150, padIn true false)]

/-- Witness for C6: on a concrete trace where B is held for two frames,
released, and pressed again (two contiguous held intervals) while X is held
for three frames (one contiguous interval), exactly 2 quits and 1 toggle are
emitted. -/
theorem c6_witness :
    ((runEmits initialSys c6Trace).map Emitted.quit).count true = 2 ∧
    ((runEmits initialSys c6Trace).map Emitted.toggle).count true = 1 := by
  have h := c6_one_shot_edges c6Trace
  exact ⟨(h.2 (by decide)).trans (by decide), h.1.trans (by decide)⟩

end HdrCalib
